import Mathlib

/-!
# Verification of the PySAL pure-python shapefile codec (`pyShpIO.py`)

This file embeds the geometry codec of `pysal/core/IOPlugins/pyShpIO.py`:

* `STRING_TO_TYPE` / `TYPE_TO_STRING` (the geometry type registry),
* the record encoder (`PurePyShpWrapper.__writer`),
* the record decoder (`PurePyShpWrapper._read`),
* the sequential cursor logic (`PurePyShpWrapper.read`),
* the write-mode type locking (`PurePyShpWrapper.__firstWrite`).

Coordinates are embedded as integers (the orientation and structural
properties under study are exact and do not depend on the float
representation).  Python dictionaries with possibly-missing keys are
embedded as structures of `Option` fields, with a lookup failure raising
`PyErr.keyError` exactly where the Python code would raise `KeyError`.
Python exceptions are `Except PyErr`.

The collaborators that the repository keeps outside the two source files
(`pysal.cg.is_clockwise`, the `cg.Point`/`cg.Chain`/`cg.Polygon`
constructors, the `shp_file` record store and `GeoSeries`) are modelled
from the specification; each such definition carries a
`Modelled from the spec:` doc comment.
-/

/-- A 2-D vertex. -/
abbrev Pt := Int × Int

/-- A ring / part: an ordered sequence of vertices. -/
abbrev PRing := List Pt

/-- Shape type tags supported by the wrapper: the domain of
`STRING_TO_TYPE` in `pyShpIO.py`. -/
inductive ShapeType where
  | POINT
  | POINTM
  | POINTZ
  | ARC
  | POLYGON
  | POLYGONZ
deriving DecidableEq

/-- The geometry variants (the Python classes `cg.Point`, `cg.Chain`,
`cg.Polygon`). -/
inductive GVariant where
  | pointV
  | chainV
  | polygonV
deriving DecidableEq

/-- `STRING_TO_TYPE`: maps a shape type tag to the geometry variant that
the reader constructs (`pyShpIO.py` lines 19-20). -/
def stringToType : ShapeType → GVariant
  | .POINT => .pointV
  | .POINTM => .pointV
  | .POINTZ => .pointV
  | .ARC => .chainV
  | .POLYGON => .polygonV
  | .POLYGONZ => .polygonV

/-- In-memory geometries.

Modelled from the spec: `Point{x,y, optional z, optional m}`,
`Polyline{parts}`, `Polygon{shell rings, hole rings}`.  A `point` mirrors
the Python tuple `(x, y, ...)`: `extras` are the coordinates beyond x/y
(so `len(shape) = 2 + extras.length`), and `attrM`/`attrZ` are the `.M`
and `.Z` attributes that `_read` assigns after construction (they do not
count towards `len`).  A `polygon` holds its shell rings and hole rings;
per the spec, a polygon constructed with `holes = None` has an empty hole
set, not a sentinel single hole. -/
inductive Geometry where
  | point (x y : Int) (extras : List Int) (attrM attrZ : Option Int)
  | chain (parts : List PRing)
  | polygon (shells holes : List PRing)
deriving DecidableEq

/-- `TYPE_TO_STRING` (`pyShpIO.py` lines 21-22): the tag of a geometry's
Python class. -/
def typeToString : Geometry → ShapeType
  | .point _ _ _ _ _ => .POINT
  | .chain _ => .ARC
  | .polygon _ _ => .POLYGON

/-- The variant (Python class) of a geometry. -/
def Geometry.variant : Geometry → GVariant
  | .point _ _ _ _ _ => .pointV
  | .chain _ => .chainV
  | .polygon _ _ => .polygonV

/-- All vertices of a geometry, in order (shells before holes). -/
def Geometry.allVerts : Geometry → List Pt
  | .point x y _ _ _ => [(x, y)]
  | .chain parts => parts.flatten
  | .polygon shells holes => (shells ++ holes).flatten

/-- Python exceptions raised by the embedded code. -/
inductive PyErr where
  | keyError (key : String)
  | typeError (t : ShapeType)
  | attributeError
deriving DecidableEq

/-- Kinds of warnings the reader emits through `warnings.warn`. -/
inductive WKind where
  | topologyFixed
  | zeroParts
deriving DecidableEq

/-- A warning emitted by `_read`; `position` is the value of `self.pos`
interpolated into the message. -/
structure Warning where
  kind : WKind
  position : Nat
deriving DecidableEq

/-- The flat record passed to / received from the `shp_file` store.

Modelled from the spec: `RawRecord` is the format-level dictionary; the
point fields (`X`, `Y`, `M`, `Z`) and the multipart fields (`NumParts`,
`Parts Index`, `NumPoints`, `Vertices`, the bounding box) are each
present or absent, as in the Python `dict`.  `shapeType` stands for the
numeric `rec['Shape Type']` code (we keep the tag itself rather than the
format's integer for it). -/
structure RawRecord where
  shapeType : ShapeType
  x : Option Int := none
  y : Option Int := none
  m : Option Int := none
  z : Option Int := none
  bbox : Option (Int × Int × Int × Int) := none
  numParts : Option Nat := none
  partsIndex : Option (List Nat) := none
  numPoints : Option Nat := none
  vertices : Option (List Pt) := none
deriving DecidableEq

/-- Dictionary lookup: `rec[key]` raises `KeyError` when absent. -/
def pyLook (field : Option α) (key : String) : Except PyErr α :=
  match field with
  | some v => .ok v
  | none => .error (.keyError key)

/-- Twice the signed area of a ring.

Modelled from the spec: `RingClassifier.signedArea(ring)` via the
shoelace formula over consecutive vertex pairs, wrap-around included
(`pysal.cg.is_clockwise` is not under `src/`).  We keep the doubled
value: only its sign is ever used. -/
def signedArea2 (r : PRing) : Int :=
  match r with
  | [] => 0
  | p0 :: _ => go r p0
where
  /-- Sum of cross terms `x_i * y_{i+1} - x_{i+1} * y_i`, wrapping the
  last vertex back to `p0`. -/
  go : PRing → Pt → Int
    | [], _ => 0
    | [q], p0 => q.1 * p0.2 - p0.1 * q.2
    | q :: q' :: rest, p0 => (q.1 * q'.2 - q'.1 * q.2) + go (q' :: rest) p0

/-- `pysal.cg.is_clockwise`.

Modelled from the spec: `isClockwise(ring) := signedArea < 0` under a
y-up coordinate system. -/
def is_clockwise (r : PRing) : Bool :=
  signedArea2 r < 0

/-- The parts index built by `__writer` (`pyShpIO.py` lines 141-143):
`partsIndex = [0]`, then for each part length except the last,
append `partsIndex[-1] + l`.  `scanSums a lens` is the loop with the
running value `a`. -/
def scanSums (a : Nat) : List Nat → List Nat
  | [] => [a]
  | l :: ls => a :: scanSums (a + l) ls

/-- `Parts Index` for a list of part lengths: cumulative sums starting
at 0, over all lengths but the last (`map(len, all_parts)[:-1]`). -/
def partsIndexOf (lens : List Nat) : List Nat :=
  scanSums 0 lens.dropLast

/-- Bounding box of a vertex list: `(xmin, ymin, xmax, ymax)`.

Modelled from the spec: `shape.bounding_box` is the geometry's min/max
extents (the `cg` bounding-box code is not under `src/`).  The empty
case returns zeros; it is unreachable for a well-formed geometry. -/
def boundingBoxOf (verts : List Pt) : Int × Int × Int × Int :=
  match verts with
  | [] => (0, 0, 0, 0)
  | v :: rest =>
      rest.foldl
        (fun acc p => (min acc.1 p.1, min acc.2.1 p.2,
                       max acc.2.2.1 p.1, max acc.2.2.2 p.2))
        (v.1, v.2, v.1, v.2)

/-- The non-point record body shared by the ARC and POLYGON branches of
`__writer` (`pyShpIO.py` lines 129-148): bounding box, `NumParts`,
`Parts Index` as cumulative sums, flattened `Vertices`, `NumPoints`. -/
def multiRec (t : ShapeType) (g : Geometry) (all_parts : List PRing)
    (nParts : Nat) : RawRecord :=
  let verts := all_parts.flatten
  { shapeType := t,
    bbox := some (boundingBoxOf g.allVerts),
    numParts := some nParts,
    partsIndex := some (partsIndexOf (all_parts.map List.length)),
    numPoints := some verts.length,
    vertices := some verts }

/-- The record built by `__writer` (`pyShpIO.py` lines 118-148) for a
shape, given the session's locked type `t`.

The writer reaches this code only after its type check, so
`t = typeToString g`; the source's branch on `self.type == 'POINT'`
therefore coincides with the match on the variant.  For a point, `X` and
`Y` are `shape[0]`/`shape[1]`, and `M`/`Z` are added when
`len(shape) > 2` / `len(shape) > 3`.  For a polygon, empty holes are
dropped (`if hole`), the remaining holes are vertex-reversed
(`hole[::-1]`), and `all_parts = shape.parts + holes`. -/
def encodeShape (t : ShapeType) (g : Geometry) : RawRecord :=
  match g with
  | .point x y extras _ _ =>
      { shapeType := t, x := some x, y := some y,
        m := if extras.length > 0 then some (extras.getD 0 0) else none,
        z := if extras.length > 1 then some (extras.getD 1 0) else none }
  | .chain parts =>
      multiRec t g parts parts.length
  | .polygon shells holes =>
      let holes2 := (holes.filter (fun h => !h.isEmpty)).map List.reverse
      multiRec t g (shells ++ holes2) (shells.length + holes2.length)

/-- A Python slice `v[a:b]` with non-negative bounds (`b = none` is an
omitted upper bound, as in `v[a:]`). -/
def pySlice (v : List Pt) (a : Nat) (b : Option Nat) : List Pt :=
  match b with
  | some b => (v.take b).drop a
  | none => v.drop a

/-- The part split of `_read` (`pyShpIO.py` lines 167-170):
`partsIndex.append(None)`, then
`parts[i] = vertices[partsIndex[i] : partsIndex[i+1]]` for
`i in range(numParts)`.  `pI[i+1]? = none` reproduces the appended
`None`; the `getD i 0` start index is only consulted for `i < pI.length`
(a shorter index list would raise `IndexError` in Python, which no
well-formed record does). -/
def splitParts (pI : List Nat) (v : List Pt) (nParts : Nat) : List PRing :=
  (List.range nParts).map fun i => pySlice v (pI.getD i 0) pI[i + 1]?

/-- Decode one record (`PurePyShpWrapper._read`, `pyShpIO.py` lines
159-198), without the cursor handling.  `decl` is the stream's declared
type `self.dataObj.type()`; `pos1` is the value of `self.pos` at decode
time (already incremented past this record), used in warning messages.

* declared `POINT`: `self.type((rec['X'], rec['Y']))`;
* declared `POINTZ`: the same, then `shp.Z = rec['Z']; shp.M = rec['M']`;
* any other declared type (including `POINTM`) reads `rec['NumParts']`:
  * `NumParts > 1`: split the vertices at the parts index; for declared
    `POLYGON` partition the parts by `is_clockwise` into shells and
    holes (`holes = None` when no part is counter-clockwise, which the
    polygon constructor stores as an empty hole set); otherwise hand the
    part list to the variant's constructor;
  * `NumParts == 1`: for declared `POLYGON` with a non-clockwise ring,
    warn (repairable topology, position `pos1`) and proceed; the flat
    vertex list becomes the single part of the constructed geometry;
  * `NumParts == 0`: warn (zero parts, position `pos1`) and construct
    the variant from `[[]]`.

Constructing a `Point` from part lists (a point-typed stream whose
record carries `NumParts`) is outside the data model; the Python
constructor would fail there, embedded as a `typeError`. -/
def decodeShape (decl : ShapeType) (pos1 : Nat) (rec : RawRecord) :
    Except PyErr (Geometry × List Warning) :=
  if decl = .POINT then
    match rec.x, rec.y with
    | some x, some y => .ok (.point x y [] none none, [])
    | none, _ => .error (.keyError "X")
    | some _, none => .error (.keyError "Y")
  else if decl = .POINTZ then
    match rec.x, rec.y, rec.z, rec.m with
    | some x, some y, some z, some m => .ok (.point x y [] (some m) (some z), [])
    | none, _, _, _ => .error (.keyError "X")
    | some _, none, _, _ => .error (.keyError "Y")
    | some _, some _, none, _ => .error (.keyError "Z")
    | some _, some _, some _, none => .error (.keyError "M")
  else
    match rec.numParts with
    | none => .error (.keyError "NumParts")
    | some np =>
      if np > 1 then
        match rec.partsIndex, rec.vertices with
        | none, _ => .error (.keyError "Parts Index")
        | some _, none => .error (.keyError "Vertices")
        | some pI, some v =>
          let parts := splitParts pI v np
          if decl = .POLYGON then
            let cw := parts.map is_clockwise
            let shells := (parts.zip cw).filterMap
              fun pc => if pc.2 then some pc.1 else none
            let holes := (parts.zip cw).filterMap
              fun pc => if pc.2 then none else some pc.1
            .ok (.polygon shells holes, [])
          else
            match stringToType decl with
            | .chainV => .ok (.chain parts, [])
            | .polygonV => .ok (.polygon parts [], [])
            | .pointV => .error (.typeError decl)
      else if np = 1 then
        match rec.vertices with
        | none => .error (.keyError "Vertices")
        | some v =>
          let ws : List Warning :=
            if decl = .POLYGON ∧ ¬ is_clockwise v
            then [⟨.topologyFixed, pos1⟩] else []
          match stringToType decl with
          | .chainV => .ok (.chain [v], ws)
          | .polygonV => .ok (.polygon [v] [], ws)
          | .pointV => .error (.typeError decl)
      else
        match stringToType decl with
        | .chainV => .ok (.chain [[]], [⟨.zeroParts, pos1⟩])
        | .polygonV => .ok (.polygon [[]] [], [⟨.zeroParts, pos1⟩])
        | .pointV => .error (.typeError decl)

/-- The tag `__firstWrite` derives for a geometry (`pyShpIO.py` lines
104-109): the class tag, refined to `POINTM`/`POINTZ` for a point of 3
or 4 coordinates.  This is the spec's `tagFor`. -/
def tagFor (g : Geometry) : ShapeType :=
  match g with
  | .point _ _ extras _ _ =>
      if 2 + extras.length = 3 then .POINTM
      else if 2 + extras.length = 4 then .POINTZ
      else .POINT
  | _ => typeToString g

/-- A read-mode session: the record store plus the cursor.

Modelled from the spec: the `shp_file` collaborator (not under `src/`)
is a record-access object exposing `recordCount()`, `declaredType()`
and `getRecord(i)`, embedded as the list of its records and its declared
type; `pos` is the session cursor `self.pos`. -/
structure RState where
  records : List RawRecord
  declType : ShapeType
  pos : Nat
deriving DecidableEq

/-- One `_read` call (`pyShpIO.py` lines 153-198): fetch
`get_shape(self.pos)`; an out-of-range fetch (`IndexError`) returns
`None` with the cursor untouched; otherwise advance the cursor and
decode.  The decoded geometry is paired with the warnings the decoder
emitted.  (In Python a decoding exception would leave the already
incremented cursor behind; the `Except` embedding drops that state, and
no claim depends on it.) -/
def readOne (s : RState) : Except PyErr (Option (Geometry × List Warning) × RState) :=
  match s.records[s.pos]? with
  | none => .ok (none, s)
  | some rec =>
      match decodeShape s.declType (s.pos + 1) rec with
      | .error e => .error e
      | .ok gw => .ok (some gw, { s with pos := s.pos + 1 })

theorem readOne_ok_some {s s' : RState} {g : Geometry} {ws : List Warning}
    (h : readOne s = .ok (some (g, ws), s')) :
    s.pos < s.records.length ∧ s' = { s with pos := s.pos + 1 } := by
  unfold readOne at h
  cases hg : s.records[s.pos]? with
  | none => simp [hg] at h
  | some rec =>
      simp only [hg] at h
      refine ⟨List.getElem?_eq_some.mp hg |>.choose, ?_⟩
      cases hd : decodeShape s.declType (s.pos + 1) rec with
      | error e => simp [hd] at h
      | ok gw =>
          simp only [hd] at h
          injection h with h'
          exact (congrArg Prod.snd h').symm

/-- The `while 1` loop of `read` for `n < 0` (`pyShpIO.py` lines
210-215): `_read` repeatedly, collecting truthy results, stopping at the
first `None`.  (Modelled from the spec: end-of-data — Python `None` — is
the only falsy read result, so `if res` is `res ≠ None`.) -/
def readAllLoop (s : RState) : Except PyErr (List Geometry × RState) :=
  match h : readOne s with
  | .error e => .error e
  | .ok (none, s') => .ok ([], s')
  | .ok (some (g, _), s') =>
      match readAllLoop s' with
      | .error e => .error e
      | .ok (gs, s'') => .ok (g :: gs, s'')
termination_by s.records.length - s.pos
decreasing_by
  obtain ⟨hlt, hs'⟩ := readOne_ok_some h
  subst hs'
  simp only
  omega

/-- The `for i in range(0, n)` loop of `read` for `n > 0` (`pyShpIO.py`
lines 224-228): append the result of `_read` — a geometry or `None` —
`n` times.  The `except StopIteration: break` guard is dead code
(`_read` signals end-of-data by returning `None`, it does not raise), so
the loop never breaks early. -/
def readNLoop : Nat → RState → Except PyErr (List (Option Geometry) × RState)
  | 0, s => .ok ([], s)
  | k + 1, s =>
      match readOne s with
      | .error e => .error e
      | .ok (og, s') =>
          match readNLoop k s' with
          | .error e => .error e
          | .ok (l, s'') => .ok ((og.map Prod.fst) :: l, s'')

/-- `[i.__geo_interface__ for i in result]` over a list that may contain
`None`: accessing `__geo_interface__` on `None` raises
`AttributeError`.

Modelled from the spec: `GeoSeries` wraps the decoded geometries in
order; we keep the geometries themselves. -/
def geoSeriesOf : List (Option Geometry) → Except PyErr (List Geometry)
  | [] => .ok []
  | some g :: rest => (geoSeriesOf rest).map (g :: ·)
  | none :: _ => .error .attributeError

/-- `PurePyShpWrapper.read` (`pyShpIO.py` lines 200-230).  The result is
`none` for Python `None` (the `n == 0` branch) and `some gs` for a
`GeoSeries` of geometries `gs`.

* `n < 0`: run the read-all loop, reset `self.pos = 0`, build the series;
* `n == 0`: return `None`, cursor untouched;
* `n > 0`: append `_read()` results `n` times, then build the series
  (which raises `AttributeError` if any entry is `None`). -/
def pyRead (s : RState) (n : Int) : Except PyErr (Option (List Geometry) × RState) :=
  if n < 0 then
    match readAllLoop s with
    | .error e => .error e
    | .ok (gs, s') => .ok (some gs, { s' with pos := 0 })
  else if n = 0 then
    .ok (none, s)
  else
    match readNLoop n.toNat s with
    | .error e => .error e
    | .ok (ogs, s') =>
        match geoSeriesOf ogs with
        | .error e => .error e
        | .ok gs => .ok (some gs, s')

/-- A write-mode session: the locked type (`self.type`, absent until the
first write), the records appended to the store so far, and the cursor.

Modelled from the spec: the `shp_file` write handle (not under `src/`)
is `openForWrite(tag)` + `appendRecord`, embedded as the list `out`. -/
structure WSession where
  locked : Option ShapeType
  out : List RawRecord
  pos : Nat
deriving DecidableEq

/-- `PurePyShpWrapper.__writer` (`pyShpIO.py` lines 114-150), with the
session's locked type `t`: raise `TypeError` when the shape's class tag
differs from `t` (before any mutation), else append the encoded record
and advance the cursor. -/
def pyWriter (t : ShapeType) (s : WSession) (g : Geometry) :
    WSession × Option PyErr :=
  if typeToString g ≠ t then
    (s, some (.typeError t))
  else
    ({ s with out := s.out ++ [encodeShape t g], pos := s.pos + 1 }, none)

/-- `write` on a write-mode session.  On a fresh session this is
`__firstWrite` (`pyShpIO.py` lines 103-112): derive and lock the tag
(`tagFor`), open the store, rebind `write` to `__writer` and call it —
so the lock persists even if that first `__writer` call raises.  On a
locked session it is `__writer` directly. -/
def pyWrite (s : WSession) (g : Geometry) : WSession × Option PyErr :=
  match s.locked with
  | none =>
      let t := tagFor g
      pyWriter t { s with locked := some t } g
  | some t => pyWriter t s g

instance {ε α : Type} [DecidableEq ε] [DecidableEq α] : DecidableEq (Except ε α)
  | .error a, .error b =>
      if h : a = b then .isTrue (by rw [h])
      else .isFalse (fun hh => by cases hh; exact h rfl)
  | .error _, .ok _ => .isFalse (fun hh => by cases hh)
  | .ok _, .error _ => .isFalse (fun hh => by cases hh)
  | .ok a, .ok b =>
      if h : a = b then .isTrue (by rw [h])
      else .isFalse (fun hh => by cases hh; exact h rfl)

/-- The zip-with-its-own-classification filter of `_read`
(`[part for part, cw in zip(parts, is_cw) if cw]`) keeps exactly the
parts satisfying the classifier. -/
theorem zip_filterMap_pos (l : List PRing) (p : PRing → Bool) :
    ((l.zip (l.map p)).filterMap fun pc => if pc.2 then some pc.1 else none)
      = l.filter p := by
  induction l with
  | nil => rfl
  | cons a t ih =>
      simp only [List.map_cons, List.zip_cons_cons, List.filterMap_cons]
      cases hp : p a <;> simp [hp, ih, List.filter_cons]

/-- The complementary filter
(`[part for part, cw in zip(parts, is_cw) if not cw]`). -/
theorem zip_filterMap_neg (l : List PRing) (p : PRing → Bool) :
    ((l.zip (l.map p)).filterMap fun pc => if pc.2 then none else some pc.1)
      = l.filter (fun r => !(p r)) := by
  induction l with
  | nil => rfl
  | cons a t ih =>
      simp only [List.map_cons, List.zip_cons_cons, List.filterMap_cons]
      cases hp : p a <;> simp [hp, ih, List.filter_cons]

/-- **C2.** For every POLYGON record with `partCount > 1`, decoding
partitions the parts purely by ring orientation: the shells are exactly
the clockwise parts and the holes exactly the non-clockwise
(counter-clockwise) parts, in record order within each class but
independently of how shells and holes interleave in the record; when no
part is counter-clockwise the hole set is the empty list, not a sentinel
single hole.  No warning is emitted and no error raised. -/
theorem polygon_multipart_partition (rec : RawRecord) (np : Nat)
    (pI : List Nat) (v : List Pt) (p : Nat)
    (hnp : rec.numParts = some np) (h1 : 1 < np)
    (hpI : rec.partsIndex = some pI) (hv : rec.vertices = some v) :
    decodeShape .POLYGON p rec =
      .ok (.polygon ((splitParts pI v np).filter is_clockwise)
                    ((splitParts pI v np).filter (fun r => !(is_clockwise r))),
           []) := by
  unfold decodeShape
  rw [hnp]
  simp only [reduceCtorEq, if_false, if_neg (by decide : ¬ (ShapeType.POLYGON = .POINT)),
    if_neg (by decide : ¬ (ShapeType.POLYGON = .POINTZ))]
  rw [if_pos h1, hpI, hv]
  simp [zip_filterMap_pos, zip_filterMap_neg]

/-- Witness for `polygon_multipart_partition`: a record with three
parts — clockwise, counter-clockwise, clockwise in that physical
order — decodes to two shells and one hole. -/
theorem polygon_multipart_partition_witness :
    decodeShape .POLYGON 1
      { shapeType := .POLYGON,
        numParts := some 3,
        partsIndex := some [0, 4, 8],
        numPoints := some 12,
        vertices := some [(0,0),(0,9),(9,9),(9,0),
                          (1,1),(2,1),(2,2),(1,2),
                          (20,0),(20,3),(23,3),(23,0)] }
      = .ok (.polygon [[(0,0),(0,9),(9,9),(9,0)],[(20,0),(20,3),(23,3),(23,0)]]
                      [[(1,1),(2,1),(2,2),(1,2)]], []) := by
  have h := polygon_multipart_partition
    { shapeType := .POLYGON,
      numParts := some 3,
      partsIndex := some [0, 4, 8],
      numPoints := some 12,
      vertices := some [(0,0),(0,9),(9,9),(9,0),
                        (1,1),(2,1),(2,2),(1,2),
                        (20,0),(20,3),(23,3),(23,0)] }
    3 [0, 4, 8]
    [(0,0),(0,9),(9,9),(9,0),(1,1),(2,1),(2,2),(1,2),(20,0),(20,3),(23,3),(23,0)]
    1 rfl (by decide) rfl rfl
  rw [h]
  decide

/-- **C10.** For every POLYGON record with `partCount > 1` all of whose
parts are counter-clockwise (positive signed area), decoding succeeds
with no warning and yields a polygon with an empty shell list whose hole
list is exactly the full part list of the record. -/
theorem polygon_all_ccw_all_holes (rec : RawRecord) (np : Nat)
    (pI : List Nat) (v : List Pt) (p : Nat)
    (hnp : rec.numParts = some np) (h1 : 1 < np)
    (hpI : rec.partsIndex = some pI) (hv : rec.vertices = some v)
    (hccw : ∀ r ∈ splitParts pI v np, 0 < signedArea2 r) :
    decodeShape .POLYGON p rec = .ok (.polygon [] (splitParts pI v np), []) := by
  rw [polygon_multipart_partition rec np pI v p hnp h1 hpI hv]
  have hnotcw : ∀ r ∈ splitParts pI v np, is_clockwise r = false := by
    intro r hr
    have := hccw r hr
    simp only [is_clockwise, decide_eq_false_iff_not]
    omega
  have e1 : (splitParts pI v np).filter is_clockwise = [] :=
    List.filter_eq_nil_iff.mpr (fun r hr => by simp [hnotcw r hr])
  have e2 : (splitParts pI v np).filter (fun r => !(is_clockwise r))
      = splitParts pI v np :=
    List.filter_eq_self.mpr (fun r hr => by simp [hnotcw r hr])
  rw [e1, e2]

/-- Witness for `polygon_all_ccw_all_holes`: a two-part record, both
parts counter-clockwise, decodes to zero shells and two holes. -/
theorem polygon_all_ccw_all_holes_witness :
    decodeShape .POLYGON 1
      { shapeType := .POLYGON,
        numParts := some 2,
        partsIndex := some [0, 4],
        numPoints := some 8,
        vertices := some [(1,1),(2,1),(2,2),(1,2),
                          (5,5),(7,5),(7,7),(5,7)] }
      = .ok (.polygon [] [[(1,1),(2,1),(2,2),(1,2)],[(5,5),(7,5),(7,7),(5,7)]],
             []) := by
  have h := polygon_all_ccw_all_holes
    { shapeType := .POLYGON,
      numParts := some 2,
      partsIndex := some [0, 4],
      numPoints := some 8,
      vertices := some [(1,1),(2,1),(2,2),(1,2),(5,5),(7,5),(7,7),(5,7)] }
    2 [0, 4] [(1,1),(2,1),(2,2),(1,2),(5,5),(7,5),(7,7),(5,7)]
    1 rfl (by decide) rfl rfl (by decide)
  rw [h]
  decide

/-- **C5.** Point-variant decoding, evaluated on the three point tags.
A record declared `POINT` decodes to a point built from its X/Y fields;
a record declared `POINTZ` decodes to a point additionally carrying the
record's M and Z values.  But a record declared `POINTM` does **not**
decode to a point: the reader's dispatch tests only for the strings
`'POINT'` and `'POINTZ'`, so a `POINTM` record falls into the multi-part
branch and raises `KeyError('NumParts')` — even though the wrapper's own
`STRING_TO_TYPE` table declares `POINTM` a supported tag mapping to
`Point`, and `__firstWrite` itself produces `POINTM` streams for
three-coordinate points.  This exhibits the code bug refuting the
claim's "decoding a POINTM record yields a Point and does not fail". -/
theorem pointm_decode_bug :
    decodeShape .POINT 1 { shapeType := .POINT, x := some 1, y := some 2 }
        = .ok (.point 1 2 [] none none, [])
    ∧ decodeShape .POINTZ 1
        { shapeType := .POINTZ, x := some 1, y := some 2,
          m := some 3, z := some 4 }
        = .ok (.point 1 2 [] (some 3) (some 4), [])
    ∧ stringToType .POINTM = .pointV
    ∧ decodeShape .POINTM 1
        { shapeType := .POINTM, x := some 1, y := some 2, m := some 3 }
        = .error (.keyError "NumParts") := by
  refine ⟨rfl, rfl, rfl, ?_⟩
  decide

/-- **C9.** For every record with `partCount == 0` in a polygon- or
arc-typed stream, `_read` does not fail: it emits exactly one
degenerate-geometry warning carrying the record's (1-based) position
`pos + 1`, advances the cursor, and produces a geometry of the stream's
variant with zero vertices. -/
theorem zero_parts_degenerate (recs : List RawRecord) (decl : ShapeType)
    (pos : Nat) (rec : RawRecord)
    (hrec : recs[pos]? = some rec)
    (hnp : rec.numParts = some 0)
    (hdecl : decl = .POLYGON ∨ decl = .POLYGONZ ∨ decl = .ARC) :
    ∃ g, readOne ⟨recs, decl, pos⟩
        = .ok (some (g, [⟨.zeroParts, pos + 1⟩]), ⟨recs, decl, pos + 1⟩)
      ∧ g.allVerts = [] ∧ g.variant = stringToType decl := by
  rcases hdecl with h | h | h <;> subst h
  · refine ⟨.polygon [[]] [], ?_, by simp [Geometry.allVerts], rfl⟩
    have hd : decodeShape .POLYGON (pos + 1) rec
        = .ok (.polygon [[]] [], [⟨.zeroParts, pos + 1⟩]) := by
      simp [decodeShape, hnp, stringToType]
    simp [readOne, hrec, hd]
  · refine ⟨.polygon [[]] [], ?_, by simp [Geometry.allVerts], rfl⟩
    have hd : decodeShape .POLYGONZ (pos + 1) rec
        = .ok (.polygon [[]] [], [⟨.zeroParts, pos + 1⟩]) := by
      simp [decodeShape, hnp, stringToType]
    simp [readOne, hrec, hd]
  · refine ⟨.chain [[]], ?_, by simp [Geometry.allVerts], rfl⟩
    have hd : decodeShape .ARC (pos + 1) rec
        = .ok (.chain [[]], [⟨.zeroParts, pos + 1⟩]) := by
      simp [decodeShape, hnp, stringToType]
    simp [readOne, hrec, hd]

/-- Witness for `zero_parts_degenerate`: the first record of a POLYGON
stream has zero parts; reading it succeeds, warns at position 1, and
yields the degenerate polygon. -/
theorem zero_parts_degenerate_witness :
    ∃ g, readOne ⟨[{ shapeType := .POLYGON, numParts := some 0 }], .POLYGON, 0⟩
        = .ok (some (g, [⟨.zeroParts, 1⟩]),
               ⟨[{ shapeType := .POLYGON, numParts := some 0 }], .POLYGON, 1⟩)
      ∧ g.allVerts = [] ∧ g.variant = stringToType .POLYGON := by
  exact zero_parts_degenerate
    [{ shapeType := .POLYGON, numParts := some 0 }] .POLYGON 0
    { shapeType := .POLYGON, numParts := some 0 }
    rfl rfl (Or.inl rfl)

/-- **C6 (amended).** For every POLYGON record with `partCount == 1`
whose single ring is not clockwise, `_read` does not fail: it emits
exactly one repairable-topology warning identifying the record by its
1-based position — the already-incremented cursor value `pos + 1`, i.e.
position **1** for the first record of the stream, not 0 — and yields a
polygon with exactly one shell (the ring, unchanged) and no holes. -/
theorem single_ccw_ring_repair (recs : List RawRecord) (pos : Nat)
    (rec : RawRecord) (v : List Pt)
    (hrec : recs[pos]? = some rec)
    (hnp : rec.numParts = some 1)
    (hv : rec.vertices = some v)
    (hccw : is_clockwise v = false) :
    readOne ⟨recs, .POLYGON, pos⟩
      = .ok (some (.polygon [v] [], [⟨.topologyFixed, pos + 1⟩]),
             ⟨recs, .POLYGON, pos + 1⟩) := by
  have hd : decodeShape .POLYGON (pos + 1) rec
      = .ok (.polygon [v] [], [⟨.topologyFixed, pos + 1⟩]) := by
    simp [decodeShape, hnp, hv, hccw, stringToType]
  simp [readOne, hrec, hd]

/-- Witness for `single_ccw_ring_repair`: a counter-clockwise
single-ring polygon record decodes to a one-shell, zero-hole polygon
with one repairable-topology warning. -/
theorem single_ccw_ring_repair_witness :
    readOne ⟨[{ shapeType := .POLYGON, numParts := some 1,
                numPoints := some 4,
                vertices := some [(1,1),(2,1),(2,2),(1,2)] }], .POLYGON, 0⟩
      = .ok (some (.polygon [[(1,1),(2,1),(2,2),(1,2)]] [],
                   [⟨.topologyFixed, 1⟩]),
             ⟨[{ shapeType := .POLYGON, numParts := some 1,
                 numPoints := some 4,
                 vertices := some [(1,1),(2,1),(2,2),(1,2)] }], .POLYGON, 1⟩) := by
  exact single_ccw_ring_repair
    [{ shapeType := .POLYGON, numParts := some 1, numPoints := some 4,
       vertices := some [(1,1),(2,1),(2,2),(1,2)] }]
    0
    { shapeType := .POLYGON, numParts := some 1, numPoints := some 4,
      vertices := some [(1,1),(2,1),(2,2),(1,2)] }
    [(1,1),(2,1),(2,2),(1,2)]
    rfl rfl rfl (by decide)

/-- **C6 counterexample.** The claim states that for the first record
of the stream the repairable-topology warning identifies position 0.
On the concrete first record below (a counter-clockwise single ring at
cursor position 0), the reader emits its one warning with position
`1` — the post-increment cursor value — and emits no warning with
position 0, so the claim as stated is false. -/
theorem single_ccw_ring_position_cex :
    readOne ⟨[{ shapeType := .POLYGON, numParts := some 1,
                numPoints := some 4,
                vertices := some [(3,3),(5,3),(5,5),(3,5)] }], .POLYGON, 0⟩
      = .ok (some (.polygon [[(3,3),(5,3),(5,5),(3,5)]] [],
                   [⟨.topologyFixed, 1⟩]),
             ⟨[{ shapeType := .POLYGON, numParts := some 1,
                 numPoints := some 4,
                 vertices := some [(3,3),(5,3),(5,5),(3,5)] }], .POLYGON, 1⟩)
    ∧ ([(⟨.topologyFixed, 1⟩ : Warning)].all fun w => w.position ≠ 0) = true := by
  constructor
  · decide
  · decide

/-- **C7.** `read` evaluated on a one-record POINT stream.  `read(0)`
returns Python `None` — the empty result — with the cursor untouched,
as claimed.  But `read(2)` does **not** stop early at end-of-data and
return the partial one-record result: `_read` signals end-of-data by
returning `None` while the loop's `except StopIteration` guard waits
for an exception that is never raised, so the overshooting iteration
appends `None` to the result list and the subsequent
`i.__geo_interface__` comprehension raises `AttributeError`.  The dead
guard shows the early stop was the intent; this is the code bug
refuting the claim's `n > 0` clause. -/
theorem readn_overshoot_bug :
    pyRead ⟨[{ shapeType := .POINT, x := some 1, y := some 2 }], .POINT, 0⟩ 0
      = .ok (none, ⟨[{ shapeType := .POINT, x := some 1, y := some 2 }], .POINT, 0⟩)
    ∧ pyRead ⟨[{ shapeType := .POINT, x := some 1, y := some 2 }], .POINT, 0⟩ 2
      = .error .attributeError := by
  constructor
  · decide
  · decide

/-- A geometry's variant determines and is determined by its
`TYPE_TO_STRING` tag. -/
theorem variant_eq_iff_tag_eq (g g' : Geometry) :
    Geometry.variant g = Geometry.variant g' ↔ typeToString g = typeToString g' := by
  cases g <;> cases g' <;> simp [Geometry.variant, typeToString]

/-- **C3.** After the first successful write on a fresh write-mode
session locks the session's type, every subsequent write of a geometry
whose variant differs from the locked type fails with the type-mismatch
`TypeError` and returns the session unchanged (cursor in particular),
while every subsequent write of a geometry whose variant agrees with
the locked type is encoded, appended to the store, and advances the
cursor by 1. -/
theorem write_type_lock (s0 s1 : WSession) (g0 g' : Geometry)
    (h0 : s0.locked = none)
    (h1 : pyWrite s0 g0 = (s1, none)) :
    (Geometry.variant g' ≠ Geometry.variant g0 →
       pyWrite s1 g' = (s1, some (.typeError (typeToString g0))))
    ∧ (Geometry.variant g' = Geometry.variant g0 →
       pyWrite s1 g' =
         ({ s1 with out := s1.out ++ [encodeShape (typeToString g0) g'],
                    pos := s1.pos + 1 }, none)) := by
  simp only [pyWrite, h0, pyWriter] at h1
  split at h1
  · exact absurd (congrArg Prod.snd h1) (by simp)
  · rename_i hmatch
    have hteq : typeToString g0 = tagFor g0 := by
      by_contra hne
      exact hmatch hne
    have hs1 : s1 = { s0 with
        locked := some (tagFor g0),
        out := s0.out ++ [encodeShape (tagFor g0) g0],
        pos := s0.pos + 1 } :=
      (congrArg Prod.fst h1).symm
    have hlock : s1.locked = some (typeToString g0) := by
      rw [hs1, hteq]
    constructor
    · intro hne
      have htagne : typeToString g' ≠ typeToString g0 :=
        fun hc => hne ((variant_eq_iff_tag_eq g' g0).mpr hc)
      simp [pyWrite, hlock, pyWriter, htagne]
    · intro heq
      have htag : typeToString g' = typeToString g0 :=
        (variant_eq_iff_tag_eq g' g0).mp heq
      simp [pyWrite, hlock, pyWriter, htag]

/-- Witness for `write_type_lock`: a fresh session first written with a
2-coordinate point; a subsequent chain write fails with the mismatch
error and leaves the session unchanged, a subsequent point write is
appended and advances the cursor from 1 to 2. -/
theorem write_type_lock_witness :
    pyWrite ⟨some .POINT, [encodeShape .POINT (.point 1 2 [] none none)], 1⟩
        (.chain [[(0,0),(1,0)]])
      = (⟨some .POINT, [encodeShape .POINT (.point 1 2 [] none none)], 1⟩,
         some (.typeError .POINT))
    ∧ pyWrite ⟨some .POINT, [encodeShape .POINT (.point 1 2 [] none none)], 1⟩
        (.point 3 4 [] none none)
      = (⟨some .POINT, [encodeShape .POINT (.point 1 2 [] none none),
                        encodeShape .POINT (.point 3 4 [] none none)], 2⟩,
         none) := by
  refine ⟨?_, ?_⟩
  · exact (write_type_lock ⟨none, [], 0⟩
      ⟨some .POINT, [encodeShape .POINT (.point 1 2 [] none none)], 1⟩
      (.point 1 2 [] none none) (.chain [[(0,0),(1,0)]])
      rfl (by decide)).1 (by decide)
  · exact (write_type_lock ⟨none, [], 0⟩
      ⟨some .POINT, [encodeShape .POINT (.point 1 2 [] none none)], 1⟩
      (.point 1 2 [] none none) (.point 3 4 [] none none)
      rfl (by decide)).2 rfl

theorem scanSums_head (a : Nat) (ls : List Nat) :
    (scanSums a ls).head? = some a := by
  cases ls <;> rfl

theorem scanSums_chain (a : Nat) (lens : List Nat)
    (hpos : ∀ l ∈ lens, 0 < l) :
    List.Chain' (· < ·) (scanSums a lens) := by
  induction lens generalizing a with
  | nil => simp [scanSums]
  | cons l ls ih =>
      rw [scanSums, List.chain'_cons']
      refine ⟨?_, ih (a + l) (fun x hx => hpos x (by simp [hx]))⟩
      intro b hb
      rw [scanSums_head] at hb
      cases hb
      have := hpos l (by simp)
      omega

theorem scanSums_getLastD (a : Nat) (lens : List Nat) :
    ∀ d, (scanSums a lens).getLastD d = a + lens.sum := by
  induction lens generalizing a with
  | nil => intro d; simp [scanSums]
  | cons l ls ih =>
      intro d
      rw [scanSums, List.getLastD_cons, ih (a + l) a]
      simp
      omega

/-- A ring with nonzero signed area is nonempty. -/
theorem ne_nil_of_signedArea2 {r : PRing} (h : signedArea2 r ≠ 0) : r ≠ [] := by
  intro he
  subst he
  exact h rfl

/-- **C4.** For every polygon geometry obeying the spec's orientation
invariant (a nonempty shell list, every shell clockwise, every hole
counter-clockwise), the record produced by the encoder has
`partCount = len(shells) + len(holes)`; its hole rings are
vertex-reversed before serialization, its vertex sequence is the
flattening of `shells ++ reversed holes`, and its part index is the list
of cumulative sums of part lengths over `shells ++ reversed holes`
starting at 0; and that part index is strictly increasing with last
element `< vertexCount`. -/
theorem polygon_encode_invariants (shells holes : List PRing)
    (hS : shells ≠ [])
    (hcw : ∀ r ∈ shells, is_clockwise r = true)
    (hccw : ∀ r ∈ holes, 0 < signedArea2 r) :
    (encodeShape .POLYGON (.polygon shells holes)).numParts
        = some (shells.length + holes.length)
    ∧ (encodeShape .POLYGON (.polygon shells holes)).vertices
        = some (shells ++ holes.map List.reverse).flatten
    ∧ (encodeShape .POLYGON (.polygon shells holes)).partsIndex
        = some (partsIndexOf ((shells ++ holes.map List.reverse).map List.length))
    ∧ (partsIndexOf ((shells ++ holes.map List.reverse).map List.length)).head?
        = some 0
    ∧ List.Chain' (· < ·)
        (partsIndexOf ((shells ++ holes.map List.reverse).map List.length))
    ∧ (partsIndexOf ((shells ++ holes.map List.reverse).map List.length)).getLastD 0
        < (shells ++ holes.map List.reverse).flatten.length := by
  have hfilter : holes.filter (fun h => !h.isEmpty) = holes := by
    refine List.filter_eq_self.mpr (fun r hr => ?_)
    have hne : r ≠ [] := ne_nil_of_signedArea2 (by have := hccw r hr; omega)
    simp [List.isEmpty_iff, hne]
  have hpos : ∀ l ∈ (shells ++ holes.map List.reverse).map List.length, 0 < l := by
    intro l hl
    rw [List.mem_map] at hl
    obtain ⟨r, hr, hlen⟩ := hl
    rw [List.mem_append] at hr
    rcases hr with hr | hr
    · have : r ≠ [] := by
        have h1 := hcw r hr
        have h2 : signedArea2 r < 0 := by
          simpa [is_clockwise] using h1
        exact ne_nil_of_signedArea2 (by omega)
      subst hlen
      exact List.length_pos.mpr this
    · rw [List.mem_map] at hr
      obtain ⟨h0, hh0, hrev⟩ := hr
      have : h0 ≠ [] := ne_nil_of_signedArea2 (by have := hccw h0 hh0; omega)
      subst hlen
      subst hrev
      simpa [List.length_reverse] using List.length_pos.mpr this
  have hlensne : (shells ++ holes.map List.reverse).map List.length ≠ [] := by
    cases shells with
    | nil => exact absurd rfl hS
    | cons a t => simp
  refine ⟨?_, ?_, ?_, scanSums_head 0 _, ?_, ?_⟩
  · simp [encodeShape, multiRec, hfilter]
  · simp [encodeShape, multiRec, hfilter]
  · simp [encodeShape, multiRec, hfilter]
  · exact scanSums_chain 0 _ (fun l hl => hpos l (List.dropLast_subset _ hl))
  · rw [partsIndexOf, scanSums_getLastD, List.length_flatten]
    generalize hg : (shells ++ holes.map List.reverse).map List.length = lens
      at hpos hlensne
    have hsplit : lens.dropLast ++ [lens.getLast hlensne] = lens :=
      List.dropLast_append_getLast hlensne
    have hlast : 0 < lens.getLast hlensne :=
      hpos _ (List.getLast_mem hlensne)
    have hsum : lens.sum = lens.dropLast.sum + lens.getLast hlensne := by
      conv_lhs => rw [← hsplit]
      simp
    omega

/-- The shell used in the `polygon_encode_invariants` witness
(clockwise). -/
def c4shell : PRing := [(0,0),(0,3),(3,3),(3,0)]

/-- The hole used in the `polygon_encode_invariants` witness
(counter-clockwise). -/
def c4hole : PRing := [(1,1),(2,1),(2,2),(1,2)]

/-- Witness for `polygon_encode_invariants`: one clockwise shell, one
counter-clockwise hole. -/
theorem polygon_encode_invariants_witness :
    (encodeShape .POLYGON (.polygon [c4shell] [c4hole])).numParts
        = some (1 + 1)
    ∧ (encodeShape .POLYGON (.polygon [c4shell] [c4hole])).vertices
        = some ([c4shell] ++ [c4hole].map List.reverse).flatten
    ∧ (encodeShape .POLYGON (.polygon [c4shell] [c4hole])).partsIndex
        = some (partsIndexOf (([c4shell] ++ [c4hole].map List.reverse).map List.length))
    ∧ (partsIndexOf (([c4shell] ++ [c4hole].map List.reverse).map List.length)).head?
        = some 0
    ∧ List.Chain' (· < ·)
        (partsIndexOf (([c4shell] ++ [c4hole].map List.reverse).map List.length))
    ∧ (partsIndexOf (([c4shell] ++ [c4hole].map List.reverse).map List.length)).getLastD 0
        < ([c4shell] ++ [c4hole].map List.reverse).flatten.length := by
  exact polygon_encode_invariants [c4shell] [c4hole]
    (by decide) (by decide) (by decide)

theorem readOne_at_end {s : RState} (h : s.records[s.pos]? = none) :
    readOne s = .ok (none, s) := by
  unfold readOne
  rw [h]

theorem readOne_decoded (s : RState) (rec : RawRecord) (g : Geometry)
    (ws : List Warning)
    (hrec : s.records[s.pos]? = some rec)
    (hdec : decodeShape s.declType (s.pos + 1) rec = .ok (g, ws)) :
    readOne s = .ok (some (g, ws), { s with pos := s.pos + 1 }) := by
  simp [readOne, hrec, hdec]

theorem readAllLoop_eq_none {s s' : RState}
    (h : readOne s = .ok (none, s')) :
    readAllLoop s = .ok ([], s') := by
  rw [readAllLoop]
  split
  · rename_i e he; rw [h] at he; cases he
  · rename_i s1 he; rw [h] at he; injection he with he'; cases he'; rfl
  · rename_i g ws s1 he; rw [h] at he; injection he with he'; cases he'

theorem readAllLoop_eq_some {s s' : RState} {g : Geometry} {ws : List Warning}
    (h : readOne s = .ok (some (g, ws), s')) :
    readAllLoop s =
      match readAllLoop s' with
      | .error e => .error e
      | .ok (gs, s'') => .ok (g :: gs, s'') := by
  rw [readAllLoop]
  split
  · rename_i e he; rw [h] at he; cases he
  · rename_i s1 he; rw [h] at he; injection he with he'; cases he'
  · rename_i g1 ws1 s1 he
    rw [h] at he
    injection he with he'
    injection he' with he1 he2
    injection he1 with he3
    injection he3 with hg hw
    subst he2; subst hg
    rfl

/-- The read-all loop, when every record decodes successfully, returns
the decoded remainder of the stream in order and leaves the cursor at
`max pos recordCount`. -/
theorem readAllLoop_spec (recs : List RawRecord) (decl : ShapeType)
    (f : RawRecord → Geometry) (w : Nat → RawRecord → List Warning)
    (hdec : ∀ r ∈ recs, ∀ p, decodeShape decl p r = .ok (f r, w p r)) :
    ∀ k pos, recs.length - pos ≤ k →
      readAllLoop ⟨recs, decl, pos⟩
        = .ok ((recs.drop pos).map f, ⟨recs, decl, max pos recs.length⟩) := by
  intro k
  induction k with
  | zero =>
      intro pos hk
      have hge : recs.length ≤ pos := by omega
      have hnone : recs[pos]? = none := List.getElem?_eq_none hge
      rw [readAllLoop_eq_none (readOne_at_end hnone)]
      rw [List.drop_of_length_le hge, Nat.max_eq_left hge]
      rfl
  | succ k ih =>
      intro pos hk
      by_cases hlt : pos < recs.length
      · have hrec : recs[pos]? = some recs[pos] := List.getElem?_eq_getElem hlt
        have hr := readOne_decoded ⟨recs, decl, pos⟩
          recs[pos] (f recs[pos]) (w (pos + 1) recs[pos])
          hrec (hdec _ (recs.getElem_mem hlt) (pos + 1))
        rw [readAllLoop_eq_some hr]
        have hih := ih (pos + 1) (by omega)
        rw [show ({ (⟨recs, decl, pos⟩ : RState) with pos := pos + 1 } : RState)
              = ⟨recs, decl, pos + 1⟩ from rfl] at hr
        rw [hih]
        have hdrop : recs.drop pos = recs[pos] :: recs.drop (pos + 1) :=
          List.drop_eq_getElem_cons hlt
        rw [hdrop]
        have hmax1 : max (pos + 1) recs.length = recs.length := by omega
        have hmax2 : max pos recs.length = recs.length := by omega
        rw [hmax1, hmax2]
        rfl
      · have hge : recs.length ≤ pos := by omega
        have hnone : recs[pos]? = none := List.getElem?_eq_none hge
        rw [readAllLoop_eq_none (readOne_at_end hnone)]
        rw [List.drop_of_length_le hge, Nat.max_eq_left hge]
        rfl

/-- The bounded read loop, when every record decodes successfully and
`k` does not overrun the stream, returns `k` decoded records (all
`some`) and advances the cursor by `k`. -/
theorem readNLoop_spec (recs : List RawRecord) (decl : ShapeType)
    (f : RawRecord → Geometry) (w : Nat → RawRecord → List Warning)
    (hdec : ∀ r ∈ recs, ∀ p, decodeShape decl p r = .ok (f r, w p r)) :
    ∀ k pos, pos + k ≤ recs.length →
      readNLoop k ⟨recs, decl, pos⟩
        = .ok (((recs.drop pos).take k).map (fun r => some (f r)),
               ⟨recs, decl, pos + k⟩) := by
  intro k
  induction k with
  | zero => intro pos hk; simp [readNLoop]
  | succ k ih =>
      intro pos hk
      have hlt : pos < recs.length := by omega
      have hrec : recs[pos]? = some recs[pos] := List.getElem?_eq_getElem hlt
      have hr := readOne_decoded ⟨recs, decl, pos⟩
        recs[pos] (f recs[pos]) (w (pos + 1) recs[pos])
        hrec (hdec _ (recs.getElem_mem hlt) (pos + 1))
      have hih := ih (pos + 1) (by omega)
      have harith : pos + 1 + k = pos + (k + 1) := by omega
      rw [harith] at hih
      have hdrop : recs.drop pos = recs[pos] :: recs.drop (pos + 1) :=
        List.drop_eq_getElem_cons hlt
      have hstep : readNLoop (k + 1) ⟨recs, decl, pos⟩
          = match readNLoop k ⟨recs, decl, pos + 1⟩ with
            | .error e => .error e
            | .ok (l, s'') => .ok (some (f recs[pos]) :: l, s'') := by
        rw [readNLoop, hr]
        rfl
      rw [hstep, hih, hdrop, List.take_succ_cons, List.map_cons]

/-- Building the geo-interface series over a list of present geometries
returns them unchanged. -/
theorem geoSeriesOf_somes (l : List Geometry) :
    geoSeriesOf (l.map (fun g => some g)) = .ok l := by
  induction l with
  | nil => rfl
  | cons g t ih => simp [geoSeriesOf, ih, Except.map]

/-- **C8.** A full-stream read (`read` with `n < 0`) collects all
remaining records, decoded in order, and resets the cursor to 0;
a partial read of `n > 0` records started at cursor 0 that does not
overrun the stream returns the first `n` decoded records and leaves the
cursor at `n`. -/
theorem read_cursor_law (recs : List RawRecord) (decl : ShapeType)
    (pos : Nat) (n : Int)
    (f : RawRecord → Geometry) (w : Nat → RawRecord → List Warning)
    (hdec : ∀ r ∈ recs, ∀ p, decodeShape decl p r = .ok (f r, w p r)) :
    pyRead ⟨recs, decl, pos⟩ (-1)
        = .ok (some ((recs.drop pos).map f), ⟨recs, decl, 0⟩)
    ∧ (0 < n → n.toNat ≤ recs.length →
        pyRead ⟨recs, decl, 0⟩ n
          = .ok (some ((recs.take n.toNat).map f), ⟨recs, decl, n.toNat⟩)) := by
  constructor
  · have hall := readAllLoop_spec recs decl f w hdec recs.length pos
      (by omega)
    rw [pyRead, if_pos (by norm_num : (-1 : Int) < 0), hall]
  · intro hn hle
    have hnn := readNLoop_spec recs decl f w hdec n.toNat 0 (by omega)
    rw [List.drop_zero, Nat.zero_add] at hnn
    rw [pyRead, if_neg (by omega : ¬ n < 0), if_neg (by omega : ¬ n = 0), hnn]
    have hser : geoSeriesOf ((recs.take n.toNat).map (fun r => some (f r)))
        = .ok ((recs.take n.toNat).map f) := by
      rw [show (recs.take n.toNat).map (fun r => some (f r))
            = ((recs.take n.toNat).map f).map (fun g => some g) by
          rw [List.map_map]; rfl]
      exact geoSeriesOf_somes _
    simp only [hser]

/-- The record used by the `read_cursor_law` witness. -/
def c8rec : RawRecord := { shapeType := .POINT, x := some 4, y := some 5 }

/-- Witness for `read_cursor_law`: a two-record POINT stream;
`read(-1)` from cursor 0 returns both points and resets the cursor to
0, `read(1)` returns the first point and leaves the cursor at 1. -/
theorem read_cursor_law_witness :
    pyRead ⟨[c8rec, c8rec], .POINT, 0⟩ (-1)
        = .ok (some [.point 4 5 [] none none, .point 4 5 [] none none],
               ⟨[c8rec, c8rec], .POINT, 0⟩)
    ∧ pyRead ⟨[c8rec, c8rec], .POINT, 0⟩ 1
        = .ok (some [.point 4 5 [] none none], ⟨[c8rec, c8rec], .POINT, 1⟩) := by
  have h := read_cursor_law [c8rec, c8rec] .POINT 0 1
    (fun _ => .point 4 5 [] none none) (fun _ _ => [])
    (by
      intro r hr p
      fin_cases hr <;> rfl)
  exact ⟨by simpa using h.1, by simpa using h.2 (by decide) (by decide)⟩

theorem scanSums_shift (a : Nat) : ∀ (ls : List Nat) (b : Nat),
    scanSums (a + b) ls = (scanSums b ls).map (a + ·) := by
  intro ls
  induction ls with
  | nil => intro b; rfl
  | cons l t ih =>
      intro b
      rw [scanSums, scanSums, List.map_cons]
      congr 1
      rw [show a + b + l = a + (b + l) by omega]
      exact ih (b + l)

theorem scanSums_length : ∀ (ls : List Nat) (a : Nat),
    (scanSums a ls).length = ls.length + 1 := by
  intro ls
  induction ls with
  | nil => intro a; rfl
  | cons l t ih => intro a; rw [scanSums, List.length_cons, ih]; rfl

/-- Shifting a slice past an appended block: slicing `p ++ w` with
bounds offset by `p.length` is slicing `w`. -/
theorem pySlice_shift (p w : List Pt) (a : Nat) (ob : Option Nat) :
    pySlice (p ++ w) (p.length + a) (ob.map (p.length + ·)) = pySlice w a ob := by
  cases ob with
  | none => simp [pySlice, List.drop_append]
  | some b => simp [pySlice, List.take_append, List.drop_append]

/-- The parts index always starts at 0. -/
theorem partsIndexOf_zero (lens : List Nat) : (partsIndexOf lens)[0]? = some 0 := by
  rw [partsIndexOf]
  cases lens.dropLast <;> simp [scanSums]

/-- The reader's part split inverts the writer's flatten-and-index: for
a nonempty part list (stated with an explicit head), splitting the
flattened vertex run at the cumulative part index recovers the parts. -/
theorem splitParts_flatten : ∀ (parts : List PRing) (p : PRing),
    splitParts (partsIndexOf ((p :: parts).map List.length))
        (p :: parts).flatten (p :: parts).length = p :: parts := by
  intro parts
  induction parts with
  | nil =>
      intro p
      rw [show partsIndexOf ([p].map List.length) = [0] from rfl]
      rw [show ([p] : List PRing).length = 1 from rfl]
      rw [splitParts, show List.range 1 = [0] from rfl, List.map_cons, List.map_nil]
      simp [pySlice]
  | cons q rest ih =>
      intro p
      have hmapne : ((q :: rest).map List.length) ≠ [] := by simp
      have hidx : partsIndexOf ((p :: q :: rest).map List.length)
          = 0 :: (partsIndexOf ((q :: rest).map List.length)).map (p.length + ·) := by
        rw [partsIndexOf, partsIndexOf, List.map_cons,
          List.dropLast_cons_of_ne_nil hmapne, scanSums]
        congr 1
        rw [show (0 + p.length) = p.length + 0 by omega]
        exact scanSums_shift p.length _ 0
      have hlenidx : (partsIndexOf ((q :: rest).map List.length)).length
          = (q :: rest).length := by
        rw [partsIndexOf, scanSums_length, List.length_dropLast, List.length_map]
        simp
      rw [hidx]
      rw [show (p :: q :: rest).flatten = p ++ (q :: rest).flatten from rfl]
      rw [show (p :: q :: rest).length = (q :: rest).length + 1 from rfl]
      rw [splitParts, List.range_succ_eq_map, List.map_cons]
      congr 1
      · simp [pySlice, List.getElem?_map, partsIndexOf_zero, List.take_left]
      · rw [List.map_map]
        conv_rhs => rw [← ih q]
        rw [splitParts]
        apply List.map_congr_left
        intro i hi
        rw [List.mem_range] at hi
        have hi' : i < (partsIndexOf ((q :: rest).map List.length)).length := by
          omega
        have hgd : (0 :: (partsIndexOf ((q :: rest).map List.length)).map
              (p.length + ·)).getD (i + 1) 0
            = p.length + (partsIndexOf ((q :: rest).map List.length)).getD i 0 := by
          rw [List.getD_cons_succ, List.getD_eq_getElem?_getD, List.getElem?_map,
            List.getElem?_eq_getElem hi', List.getD_eq_getElem?_getD,
            List.getElem?_eq_getElem hi']
          rfl
        have hge : (0 :: (partsIndexOf ((q :: rest).map List.length)).map
              (p.length + ·))[i + 1 + 1]?
            = ((partsIndexOf ((q :: rest).map List.length))[i + 1]?).map
                (p.length + ·) := by
          rw [List.getElem?_cons_succ, List.getElem?_map]
        simp only [Function.comp_apply, hgd, hge]
        exact pySlice_shift p ((q :: rest).flatten)
          ((partsIndexOf ((q :: rest).map List.length)).getD i 0)
          ((partsIndexOf ((q :: rest).map List.length))[i + 1]?)

/-- The ARC branch of the decoder for a multi-part record. -/
theorem arc_multipart_decode (rec : RawRecord) (np : Nat) (pI : List Nat)
    (v : List Pt) (p : Nat)
    (hnp : rec.numParts = some np) (h1 : 1 < np)
    (hpI : rec.partsIndex = some pI) (hv : rec.vertices = some v) :
    decodeShape .ARC p rec = .ok (.chain (splitParts pI v np), []) := by
  unfold decodeShape
  rw [hnp]
  simp only [reduceCtorEq, if_false, if_neg (by decide : ¬ (ShapeType.ARC = .POINT)),
    if_neg (by decide : ¬ (ShapeType.ARC = .POINTZ))]
  rw [if_pos h1, hpI, hv]
  simp [stringToType]

/-- The ARC branch of the decoder for a single-part record. -/
theorem arc_single_decode (rec : RawRecord) (v : List Pt) (p : Nat)
    (hnp : rec.numParts = some 1) (hv : rec.vertices = some v) :
    decodeShape .ARC p rec = .ok (.chain [v], []) := by
  simp [decodeShape, hnp, hv, stringToType]

/-- The POLYGON branch of the decoder for a single-part record whose
ring is clockwise: no warning. -/
theorem polygon_single_cw_decode (rec : RawRecord) (v : List Pt) (p : Nat)
    (hnp : rec.numParts = some 1) (hv : rec.vertices = some v)
    (hcw : is_clockwise v = true) :
    decodeShape .POLYGON p rec = .ok (.polygon [v] [], []) := by
  simp [decodeShape, hnp, hv, hcw, stringToType]

/-- Wrapper: for any nonempty part list, the reader's split inverts the
writer's flatten. -/
theorem splitParts_flatten_of_ne_nil (parts : List PRing) (hne : parts ≠ []) :
    splitParts (partsIndexOf (parts.map List.length)) parts.flatten parts.length
      = parts := by
  cases parts with
  | nil => exact absurd rfl hne
  | cons p t => exact splitParts_flatten t p

/-- **C1 (amended).** Writer-then-reader round trip.  For every
supported geometry in the class the code actually round-trips —
a 2-attribute point, a polyline with at least one part, or a polygon
with clockwise shells and **no holes** — decoding the encoded record
under `tagFor g` returns exactly `g`, with no warning.  (Polygons with
holes do not round-trip: see the counterexample, where the encoder's
hole reversal makes the decoder classify the former holes as
shells.) -/
theorem roundtrip_amended (g : Geometry)
    (h : (∃ x y, g = .point x y [] none none)
       ∨ (∃ parts, g = .chain parts ∧ parts ≠ [])
       ∨ (∃ shells, g = .polygon shells [] ∧ shells ≠ []
            ∧ ∀ r ∈ shells, is_clockwise r = true)) :
    decodeShape (tagFor g) 1 (encodeShape (tagFor g) g) = .ok (g, []) := by
  rcases h with ⟨x, y, rfl⟩ | ⟨parts, rfl, hne⟩ | ⟨shells, rfl, hne, hcw⟩
  · rfl
  · rw [show tagFor (.chain parts) = .ARC from rfl]
    match parts, hne with
    | [p], _ =>
        rw [arc_single_decode (encodeShape .ARC (.chain [p])) ([p].flatten) 1
          rfl rfl]
        simp
    | p :: q :: rest, _ =>
        rw [arc_multipart_decode (encodeShape .ARC (.chain (p :: q :: rest)))
          (p :: q :: rest).length
          (partsIndexOf ((p :: q :: rest).map List.length))
          (p :: q :: rest).flatten 1
          rfl (by simp) rfl rfl]
        rw [splitParts_flatten (q :: rest) p]
  · rw [show tagFor (.polygon shells []) = .POLYGON from rfl]
    have henc : encodeShape .POLYGON (.polygon shells [])
        = multiRec .POLYGON (.polygon shells []) shells shells.length := by
      simp [encodeShape]
    match shells, hne, hcw with
    | [s], _, hcw =>
        rw [henc]
        rw [polygon_single_cw_decode
          (multiRec .POLYGON (.polygon [s] []) [s] [s].length)
          ([s].flatten) 1 rfl rfl
          (by simpa using hcw s (by simp))]
        simp
    | s :: t :: rest, _, hcw =>
        rw [henc]
        rw [polygon_multipart_partition
          (multiRec .POLYGON (.polygon (s :: t :: rest) []) (s :: t :: rest)
            (s :: t :: rest).length)
          (s :: t :: rest).length
          (partsIndexOf ((s :: t :: rest).map List.length))
          (s :: t :: rest).flatten 1
          rfl (by simp) rfl rfl]
        rw [splitParts_flatten (t :: rest) s]
        have e1 : (s :: t :: rest).filter is_clockwise = s :: t :: rest :=
          List.filter_eq_self.mpr hcw
        have e2 : (s :: t :: rest).filter (fun r => !(is_clockwise r)) = [] :=
          List.filter_eq_nil_iff.mpr (fun r hr => by simp [hcw r hr])
        rw [e1, e2]

/-- The shell of the round-trip witness (clockwise). -/
def c1shell : PRing := [(0,0),(0,9),(9,9),(9,0)]

/-- A second clockwise shell for the round-trip witness. -/
def c1shell2 : PRing := [(20,0),(20,3),(23,3),(23,0)]

/-- Witness for `roundtrip_amended`: a two-shell, hole-free polygon
round-trips exactly. -/
theorem roundtrip_amended_witness :
    decodeShape (tagFor (.polygon [c1shell, c1shell2] []))
        1 (encodeShape (tagFor (.polygon [c1shell, c1shell2] []))
           (.polygon [c1shell, c1shell2] []))
      = .ok (.polygon [c1shell, c1shell2] [], []) := by
  exact roundtrip_amended (.polygon [c1shell, c1shell2] [])
    (Or.inr (Or.inr ⟨[c1shell, c1shell2], rfl, by decide, by decide⟩))

/-- Closure normalization of a ring: drop the duplicated closing vertex
when the ring is stored closed (first vertex repeated at the end).
This formalizes the claim's "closure normalization". -/
def closeNorm (r : PRing) : PRing :=
  match r with
  | [] => []
  | p :: rest => if (p :: rest).getLast? = some p then (p :: rest).dropLast
                 else p :: rest

/-- Rotation of a ring's starting vertex by `n` positions. -/
def rotateRing (n : Nat) (r : PRing) : PRing :=
  r.drop n ++ r.take n

/-- Ring equality up to rotation of the starting vertex and closure
normalization, as the claim's comparison requires. -/
def ringEqRot (r1 r2 : PRing) : Bool :=
  (List.range (max 1 (closeNorm r1).length)).any
    fun n => decide (rotateRing n (closeNorm r1) = closeNorm r2)

/-- Geometry equality up to ring rotation and closure normalization:
same variant, same ring counts, rings pairwise `ringEqRot`. -/
def geomEqRot : Geometry → Geometry → Bool
  | .point x1 y1 e1 m1 z1, .point x2 y2 e2 m2 z2 =>
      decide (x1 = x2 ∧ y1 = y2 ∧ e1 = e2 ∧ m1 = m2 ∧ z1 = z2)
  | .chain ps, .chain qs =>
      decide (ps.length = qs.length)
        && (ps.zip qs).all fun pq => ringEqRot pq.1 pq.2
  | .polygon s1 h1, .polygon s2 h2 =>
      decide (s1.length = s2.length) && decide (h1.length = h2.length)
        && ((s1.zip s2).all fun pq => ringEqRot pq.1 pq.2)
        && ((h1.zip h2).all fun pq => ringEqRot pq.1 pq.2)
  | _, _ => false

/-- **C1 counterexample.** A polygon with one clockwise shell and one
counter-clockwise hole does not round-trip, even up to ring rotation
and closure normalization: the encoder reverses the hole (making it
clockwise in the record), so the decoder classifies it as a second
shell and the decoded polygon has two shells and no hole. -/
theorem roundtrip_holes_cex :
    decodeShape (tagFor (.polygon [[(0,0),(0,3),(3,3),(3,0)]]
                                  [[(1,1),(2,1),(2,2),(1,2)]])) 1
        (encodeShape (tagFor (.polygon [[(0,0),(0,3),(3,3),(3,0)]]
                                       [[(1,1),(2,1),(2,2),(1,2)]]))
           (.polygon [[(0,0),(0,3),(3,3),(3,0)]] [[(1,1),(2,1),(2,2),(1,2)]]))
      = .ok (.polygon [[(0,0),(0,3),(3,3),(3,0)],[(1,2),(2,2),(2,1),(1,1)]] [],
             [])
    ∧ geomEqRot
        (.polygon [[(0,0),(0,3),(3,3),(3,0)],[(1,2),(2,2),(2,1),(1,1)]] [])
        (.polygon [[(0,0),(0,3),(3,3),(3,0)]] [[(1,1),(2,1),(2,2),(1,2)]])
      = false := by
  constructor
  · decide
  · decide
